import Mathlib

/-!
Shallow embedding of the "Lohas channel" stock dashboard (app.py / app2.py /
app3.py / app4.py).  Rationals stand in for the source's floats; the integer
index column `df['x'] = np.arange(len(df))` becomes `Finset.range`.  The
statistical core follows `scipy.stats.linregress` (mean/covariance form) and
`np.std` (population standard deviation, denominator n).
-/

namespace Lohas

/-- Valuation labels of the five-level classifier in `app2.py` (`status_label`,
lines 184-189): `peak` stands for the string "🔴 天價", `elevated` for
"🟠 偏高", `fair` for "⚪ 合理", `low` for "🔵 偏低", `bargain` for "🟢 特價".
The batch scan (lines 268-272) uses the same five levels with longer display
strings, abstracted to the same constructors. -/
inductive Label where
  | peak
  | elevated
  | fair
  | low
  | bargain
deriving DecidableEq

/-- Closing price at row index `i` (`df['Close']` after `reset_index`).
Indices outside the series are never used by the source and default to 0. -/
def y (prices : List ℚ) (i : ℕ) : ℚ := prices.getD i 0

/-- Mean of the index column `df['x'] = np.arange(len(df))`, as computed
inside `scipy.stats.linregress`. -/
def xmean (prices : List ℚ) : ℚ :=
  (∑ i ∈ Finset.range prices.length, (i : ℚ)) / prices.length

/-- Mean of the closing prices, as computed inside `scipy.stats.linregress`. -/
def ymean (prices : List ℚ) : ℚ :=
  (∑ i ∈ Finset.range prices.length, y prices i) / prices.length

/-- `ssxm` of `scipy.stats.linregress`: the (population) variance of the index
column, entry of `np.cov(x, y, bias=1)`. -/
def ssxm (prices : List ℚ) : ℚ :=
  (∑ i ∈ Finset.range prices.length, ((i : ℚ) - xmean prices) ^ 2) /
    prices.length

/-- `ssxym` of `scipy.stats.linregress`: the (population) covariance of the
index column and the prices. -/
def ssxym (prices : List ℚ) : ℚ :=
  (∑ i ∈ Finset.range prices.length,
      ((i : ℚ) - xmean prices) * (y prices i - ymean prices)) /
    prices.length

/-- `ssym` of `scipy.stats.linregress`: the (population) variance of the
prices. -/
def ssym (prices : List ℚ) : ℚ :=
  (∑ i ∈ Finset.range prices.length, (y prices i - ymean prices) ^ 2) /
    prices.length

/-- Regression slope, `slope = ssxym / ssxm` in `scipy.stats.linregress`. -/
def slope (prices : List ℚ) : ℚ := ssxym prices / ssxm prices

/-- Regression intercept, `intercept = ymean - slope * xmean` in
`scipy.stats.linregress`. -/
def intercept (prices : List ℚ) : ℚ :=
  ymean prices - slope prices * xmean prices

/-- Trend line `df['TL'] = slope * df['x'] + intercept`. -/
def TL (prices : List ℚ) (i : ℕ) : ℚ := slope prices * i + intercept prices

/-- Regression residual `df['Close'] - df['TL']` at row `i`. -/
def residual (prices : List ℚ) (i : ℕ) : ℚ := y prices i - TL prices i

/-- Population variance of the residuals: the square of
`np.std(df['Close'] - df['TL'])`, whose default `ddof=0` divides by n. -/
def variance (prices : List ℚ) : ℚ :=
  (∑ i ∈ Finset.range prices.length, residual prices i ^ 2) / prices.length

/-- `std_dev = np.std(df['Close'] - df['TL'])`: population standard deviation
of the residuals (square root of the denominator-n variance). -/
noncomputable def std_dev (prices : List ℚ) : ℝ :=
  Real.sqrt ((variance prices : ℝ))

/-- Band `df['TL+2SD'] = df['TL'] + (2 * std_dev)`. -/
noncomputable def TLp2SD (prices : List ℚ) (i : ℕ) : ℝ :=
  (TL prices i : ℝ) + 2 * std_dev prices

/-- Band `df['TL+1SD'] = df['TL'] + (1 * std_dev)`. -/
noncomputable def TLp1SD (prices : List ℚ) (i : ℕ) : ℝ :=
  (TL prices i : ℝ) + 1 * std_dev prices

/-- Band `df['TL-1SD'] = df['TL'] - (1 * std_dev)`. -/
noncomputable def TLm1SD (prices : List ℚ) (i : ℕ) : ℝ :=
  (TL prices i : ℝ) - 1 * std_dev prices

/-- Band `df['TL-2SD'] = df['TL'] - (2 * std_dev)`. -/
noncomputable def TLm2SD (prices : List ℚ) (i : ℕ) : ℝ :=
  (TL prices i : ℝ) - 2 * std_dev prices

/-- `r` of `scipy.stats.linregress` (0 when either variance term vanishes,
otherwise `ssxym / sqrt(ssxm * ssym)`, the Pearson correlation): this is the
path taken by `get_stock_data` in app4.py, and by app3.py's `get_stock_data`
for the 日 (daily) and 月 (monthly) time frames.  The 週 (weekly) time frame
of app3.py takes a different branch, embedded below as `r_squared_weekly`. -/
noncomputable def r_value (prices : List ℚ) : ℝ :=
  if ssxm prices = 0 ∨ ssym prices = 0 then 0
  else (ssxym prices : ℝ) / Real.sqrt ((ssxm prices : ℝ) * (ssym prices : ℝ))

/-- `r_squared = r_value ** 2` as reported on the `linregress` path
(app4.py, and app3.py for the daily and monthly time frames). -/
noncomputable def r_squared (prices : List ℚ) : ℝ := r_value prices ^ 2

/-- `np.linspace(0.3, 1.0, n)` at position `i`: evenly spaced values from 0.3
to 1.0 (app3.py line 898, weekly branch of `get_stock_data`). -/
def linspace03 (n i : ℕ) : ℚ := 3 / 10 + 7 / 10 * i / ((n : ℚ) - 1)

/-- Weekly regression weights `w = np.linspace(0.3, 1.0, len(x)) ** 2`
(app3.py line 898). -/
def wweek (n i : ℕ) : ℚ := linspace03 n i ^ 2

/-- Effective objective weights of `np.polyfit(x, y, 1, w=w)`: polyfit scales
the unsquared residual at each point by `w[i]`, so its least-squares
objective is `Σ (w[i] * (y[i] - m*i - b))^2`, carrying `w ** 2`. -/
def vweek (prices : List ℚ) (i : ℕ) : ℚ := wweek prices.length i ^ 2

/-- `Σ v` for the weekly weighted fit. -/
def Svw (prices : List ℚ) : ℚ :=
  ∑ i ∈ Finset.range prices.length, vweek prices i

/-- `Σ v*x` for the weekly weighted fit. -/
def Svwx (prices : List ℚ) : ℚ :=
  ∑ i ∈ Finset.range prices.length, vweek prices i * i

/-- `Σ v*x^2` for the weekly weighted fit. -/
def Svwxx (prices : List ℚ) : ℚ :=
  ∑ i ∈ Finset.range prices.length, vweek prices i * (i : ℚ) ^ 2

/-- `Σ v*y` for the weekly weighted fit. -/
def Svwy (prices : List ℚ) : ℚ :=
  ∑ i ∈ Finset.range prices.length, vweek prices i * y prices i

/-- `Σ v*x*y` for the weekly weighted fit. -/
def Svwxy (prices : List ℚ) : ℚ :=
  ∑ i ∈ Finset.range prices.length, vweek prices i * i * y prices i

/-- Slope returned by `np.polyfit(x, y, 1, w=w)` (app3.py line 899): the
unique minimiser of `Σ (w[i] * (y[i] - m*i - b))^2`, written via its normal
equations with `v = w^2`. -/
def slope_weekly (prices : List ℚ) : ℚ :=
  (Svw prices * Svwxy prices - Svwx prices * Svwy prices)
    / (Svw prices * Svwxx prices - Svwx prices ^ 2)

/-- Intercept returned by `np.polyfit(x, y, 1, w=w)` (app3.py line 899). -/
def intercept_weekly (prices : List ℚ) : ℚ :=
  (Svwy prices - slope_weekly prices * Svwx prices) / Svw prices

/-- `y_hat = slope * x + intercept` (app3.py line 900, weekly branch). -/
def yhat_weekly (prices : List ℚ) (i : ℕ) : ℚ :=
  slope_weekly prices * i + intercept_weekly prices

/-- `np.average(y, weights=w)` (app3.py line 902). -/
def yavg_weekly (prices : List ℚ) : ℚ :=
  (∑ i ∈ Finset.range prices.length, wweek prices.length i * y prices i)
    / (∑ i ∈ Finset.range prices.length, wweek prices.length i)

/-- The quantity reported as `r_squared` by app3.py's weekly branch (lines
901-902): `1 - np.sum(w*(y-y_hat)**2) / np.sum(w*(y-np.average(y,w))**2)`.
The fit minimises the `w^2`-weighted objective while this formula weights by
`w`, so the value is not a squared correlation and can be negative. -/
def r_squared_weekly (prices : List ℚ) : ℚ :=
  1 - (∑ i ∈ Finset.range prices.length,
        wweek prices.length i * (y prices i - yhat_weekly prices i) ^ 2)
    / (∑ i ∈ Finset.range prices.length,
        wweek prices.length i * (y prices i - yavg_weekly prices) ^ 2)

/-- Latest closing price `df['Close'].iloc[-1]` (the last row). -/
def currentPrice (prices : List ℚ) : ℚ := prices.getD (prices.length - 1) 0

/-- Five-level classifier of app2.py lines 185-189: a chain of strict `>`
comparisons against the latest-row band values, falling through to `bargain`. -/
def statusLabel {α : Type} [LinearOrder α] (p p2 p1 m1 m2 : α) : Label :=
  if p > p2 then .peak
  else if p > p1 then .elevated
  else if p > m1 then .fair
  else if p > m2 then .low
  else .bargain

/-- Classification of the latest price in app2.py lines 176-189: the latest
close compared against the latest-row values of the four bands. -/
noncomputable def latestStatus (prices : List ℚ) : Label :=
  statusLabel ((currentPrice prices : ℝ))
    (TLp2SD prices (prices.length - 1)) (TLp1SD prices (prices.length - 1))
    (TLm1SD prices (prices.length - 1)) (TLm2SD prices (prices.length - 1))

/-- Percent distance from the trend line,
`dist_pct = ((current_price - last_tl) / last_tl) * 100` (app2.py line 182,
`dist_from_tl` in app.py line 78).  The source divides floats with no guard;
when `tl = 0` that float division produces a non-finite value (inf/NaN),
modelled here as `none`. -/
def distPct (p tl : ℚ) : Option ℚ :=
  if tl = 0 then none else some ((p - tl) / tl * 100)

/-- Data acquisition of `get_lohas_data` (app2.py lines 120-145): `fetch`
models the `yf.download` result per ticker (`none` = exception / no data).
An empty frame is rejected (`if df.empty: return None`); any non-empty series,
including a single row, flows on into the regression. -/
def getLohasData (fetch : String → Option (List ℚ)) (t : String) :
    Option (List ℚ) :=
  match fetch t with
  | none => none
  | some ps => if ps.isEmpty then none else some ps

/-- One row of the batch-scan summary table (app2.py lines 274-280): ticker,
display name, latest price, percent distance from the trend line, and the
five-level position label. -/
structure Row where
  ticker : String
  name : String
  price : ℚ
  distPct : Option ℚ
  pos : Label

/-- The five-level chain duplicated inside the scan loop (app2.py lines
268-272), with the same strict comparisons as `status_label`. -/
def scanPos {α : Type} [LinearOrder α] (p p2 p1 m1 m2 : α) : Label :=
  if p > p2 then .peak
  else if p > p1 then .elevated
  else if p > m1 then .fair
  else if p > m2 then .low
  else .bargain

/-- Body of the scan loop (app2.py lines 261-280) for one ticker whose fetch
succeeded with price series `ps`. -/
noncomputable def scanRow (t nm : String) (ps : List ℚ) : Row :=
  ⟨t, nm, currentPrice ps,
    distPct (currentPrice ps) (TL ps (ps.length - 1)),
    scanPos ((currentPrice ps : ℝ))
      (TLp2SD ps (ps.length - 1)) (TLp1SD ps (ps.length - 1))
      (TLm1SD ps (ps.length - 1)) (TLm2SD ps (ps.length - 1))⟩

/-- The batch scan (app2.py lines 252-282): iterate the watchlist in order,
skip tickers whose fetch failed (`if res:`), and append one summary row per
success. -/
noncomputable def summaryData (watchlist : List (String × String))
    (fetch : String → Option (List ℚ)) : List Row :=
  watchlist.filterMap (fun e =>
    (getLohasData fetch e.1).map (fun ps => scanRow e.1 e.2 ps))

/-- The hard-coded fallback watchlist `default_dict` of
`load_watchlist_from_google` (app2.py line 19). -/
def defaultDict : List (String × String) :=
  [("2330.TW", "台積電"), ("0050.TW", "元大台灣50"),
   ("AAPL", "蘋果"), ("NVDA", "輝達")]

/-- `sorted(watchlist_dict.items(), key=lambda x: x[0])` of
`save_watchlist_to_google` (app2.py line 39): sort the entries by ticker. -/
def sortItems (w : List (String × String)) : List (String × String) :=
  w.mergeSort (fun a b => decide (a.1 ≤ b.1))

/-- The cell matrix written by `save_watchlist_to_google` (app2.py lines
35-44): after `sheet.clear()` the sheet holds exactly the header row
`["ticker", "name"]` followed by one `[t, n]` row per sorted entry. -/
def saveRows (w : List (String × String)) : List (List String) :=
  ["ticker", "name"] :: (sortItems w).map (fun e => [e.1, e.2])

/-- `load_watchlist_from_google` (app2.py lines 17-29) applied to a stored
cell matrix: when more than one row is present, every data row with a
non-empty first cell becomes a (ticker, name) entry (a missing second cell
reads as ""); otherwise the built-in `default_dict` is returned. -/
def loadSheet (records : List (List String)) : List (String × String) :=
  if 1 < records.length then
    (records.drop 1).filterMap (fun row =>
      if row.getD 0 "" = "" then none else some (row.getD 0 "", row.getD 1 ""))
  else defaultDict

/-! ### Arithmetic helper lemmas -/

lemma cast_length_ne_zero {prices : List ℚ} (hn : 2 ≤ prices.length) :
    (prices.length : ℚ) ≠ 0 :=
  Nat.cast_ne_zero.mpr (by omega)

lemma sum_range_cast (n : ℕ) :
    ∑ i ∈ Finset.range n, (i : ℚ) = n * (n - 1) / 2 := by
  induction n with
  | zero => simp
  | succ m ih =>
    rw [Finset.sum_range_succ, ih]
    push_cast
    ring

lemma sum_range_sq_cast (n : ℕ) :
    ∑ i ∈ Finset.range n, (i : ℚ) ^ 2 = n * (n - 1) * (2 * n - 1) / 6 := by
  induction n with
  | zero => simp
  | succ m ih =>
    rw [Finset.sum_range_succ, ih]
    push_cast
    ring

lemma sum_sub_sq (n : ℕ) (f : ℕ → ℚ) (c : ℚ) :
    ∑ i ∈ Finset.range n, (f i - c) ^ 2
      = ∑ i ∈ Finset.range n, f i ^ 2
        - 2 * c * ∑ i ∈ Finset.range n, f i + n * c ^ 2 := by
  have h : ∀ i ∈ Finset.range n,
      (f i - c) ^ 2 = f i ^ 2 - (2 * c * f i) + c ^ 2 := fun i _ => by ring
  rw [Finset.sum_congr rfl h, Finset.sum_add_distrib, Finset.sum_sub_distrib,
    ← Finset.mul_sum, Finset.sum_const, Finset.card_range, nsmul_eq_mul]

lemma sum_sub_mul_sub (n : ℕ) (f g : ℕ → ℚ) (a b : ℚ) :
    ∑ i ∈ Finset.range n, (f i - a) * (g i - b)
      = ∑ i ∈ Finset.range n, f i * g i
        - a * ∑ i ∈ Finset.range n, g i - b * ∑ i ∈ Finset.range n, f i
        + n * (a * b) := by
  have h : ∀ i ∈ Finset.range n,
      (f i - a) * (g i - b)
        = f i * g i - (a * g i) - (b * f i) + a * b := fun i _ => by ring
  rw [Finset.sum_congr rfl h, Finset.sum_add_distrib, Finset.sum_sub_distrib,
    Finset.sum_sub_distrib, ← Finset.mul_sum, ← Finset.mul_sum,
    Finset.sum_const, Finset.card_range, nsmul_eq_mul]

/-- Closed form for the index variance: `ssxm = (n^2 - 1) / 12`. -/
lemma ssxm_eq {prices : List ℚ} (hn : 2 ≤ prices.length) :
    ssxm prices = ((prices.length : ℚ) ^ 2 - 1) / 12 := by
  have hQ : (prices.length : ℚ) ≠ 0 := cast_length_ne_zero hn
  unfold ssxm xmean
  rw [sum_sub_sq, sum_range_cast, sum_range_sq_cast]
  field_simp
  ring

lemma ssxm_pos {prices : List ℚ} (hn : 2 ≤ prices.length) :
    0 < ssxm prices := by
  rw [ssxm_eq hn]
  have h2 : (2 : ℚ) ≤ (prices.length : ℚ) := by exact_mod_cast hn
  nlinarith

lemma slope_mul_ssxm {prices : List ℚ} (hn : 2 ≤ prices.length) :
    slope prices * ssxm prices = ssxym prices := by
  unfold slope
  field_simp [ne_of_gt (ssxm_pos hn)]

/-- First normal equation of the least-squares fit: residuals sum to zero. -/
lemma sum_residual_eq_zero {prices : List ℚ} (hn : 2 ≤ prices.length) :
    ∑ i ∈ Finset.range prices.length, residual prices i = 0 := by
  have hQ : (prices.length : ℚ) ≠ 0 := cast_length_ne_zero hn
  unfold residual TL intercept ymean xmean
  rw [Finset.sum_sub_distrib, Finset.sum_add_distrib, ← Finset.mul_sum,
    Finset.sum_const, Finset.card_range, nsmul_eq_mul]
  field_simp

lemma residual_eq (prices : List ℚ) (i : ℕ) :
    residual prices i
      = (y prices i - ymean prices)
        - slope prices * ((i : ℚ) - xmean prices) := by
  unfold residual TL intercept
  ring

/-- Second normal equation of the least-squares fit: residuals are orthogonal
to the index column. -/
lemma sum_x_mul_residual_eq_zero {prices : List ℚ} (hn : 2 ≤ prices.length) :
    ∑ i ∈ Finset.range prices.length, (i : ℚ) * residual prices i = 0 := by
  have hQ : (prices.length : ℚ) ≠ 0 := cast_length_ne_zero hn
  have hkey := slope_mul_ssxm hn
  have hsplit : ∀ i ∈ Finset.range prices.length,
      (i : ℚ) * residual prices i
        = ((i : ℚ) - xmean prices) * residual prices i
          + xmean prices * residual prices i := fun i _ => by ring
  rw [Finset.sum_congr rfl hsplit, Finset.sum_add_distrib, ← Finset.mul_sum,
    sum_residual_eq_zero hn, mul_zero, add_zero]
  have hres : ∀ i ∈ Finset.range prices.length,
      ((i : ℚ) - xmean prices) * residual prices i
        = ((i : ℚ) - xmean prices) * (y prices i - ymean prices)
          - slope prices * ((i : ℚ) - xmean prices) ^ 2 := by
    intro i _
    rw [residual_eq]
    ring
  rw [Finset.sum_congr rfl hres, Finset.sum_sub_distrib, ← Finset.mul_sum]
  have h1 : ∑ i ∈ Finset.range prices.length,
      ((i : ℚ) - xmean prices) * (y prices i - ymean prices)
        = ssxym prices * prices.length := by
    unfold ssxym
    field_simp
  have h2 : ∑ i ∈ Finset.range prices.length,
      ((i : ℚ) - xmean prices) ^ 2 = ssxm prices * prices.length := by
    unfold ssxm
    field_simp
  rw [h1, h2]
  linear_combination (-(prices.length : ℚ)) * hkey

/-- The fitted line minimises the sum of squared residuals over all candidate
lines: this is what "ordinary least squares" means. -/
lemma ols_min {prices : List ℚ} (hn : 2 ≤ prices.length) (m b : ℚ) :
    ∑ i ∈ Finset.range prices.length, residual prices i ^ 2
      ≤ ∑ i ∈ Finset.range prices.length, (y prices i - (m * i + b)) ^ 2 := by
  have h0 := sum_residual_eq_zero hn
  have h1 := sum_x_mul_residual_eq_zero hn
  have hexp : ∀ i ∈ Finset.range prices.length,
      (y prices i - (m * i + b)) ^ 2
        = residual prices i ^ 2
          + ((2 * (slope prices - m)) * ((i : ℚ) * residual prices i)
             + (2 * (intercept prices - b)) * residual prices i)
          + ((slope prices - m) * i + (intercept prices - b)) ^ 2 := by
    intro i _
    unfold residual TL
    ring
  rw [Finset.sum_congr rfl hexp, Finset.sum_add_distrib, Finset.sum_add_distrib,
    Finset.sum_add_distrib, ← Finset.mul_sum, ← Finset.mul_sum, h0, h1]
  have hsq : 0 ≤ ∑ i ∈ Finset.range prices.length,
      ((slope prices - m) * i + (intercept prices - b)) ^ 2 :=
    Finset.sum_nonneg fun i _ => sq_nonneg _
  linarith

lemma ssxm_nonneg (prices : List ℚ) : 0 ≤ ssxm prices :=
  div_nonneg (Finset.sum_nonneg fun i _ => sq_nonneg _) (Nat.cast_nonneg _)

lemma ssym_nonneg (prices : List ℚ) : 0 ≤ ssym prices :=
  div_nonneg (Finset.sum_nonneg fun i _ => sq_nonneg _) (Nat.cast_nonneg _)

/-- Cauchy-Schwarz for the covariance terms of the regression. -/
lemma ssxym_sq_le (prices : List ℚ) :
    ssxym prices ^ 2 ≤ ssxm prices * ssym prices := by
  unfold ssxym ssxm ssym
  rcases Nat.eq_zero_or_pos prices.length with h0 | hpos
  · simp [h0]
  · have hQ : (0 : ℚ) < (prices.length : ℚ) ^ 2 := by positivity
    rw [div_pow, div_mul_div_comm, ← sq, div_le_div_iff_of_pos_right hQ]
    exact Finset.sum_mul_sq_le_sq_mul_sq _ _ _

/-! ### Exactly linear (and constant) input series -/

lemma y_eq_of_const {prices : List ℚ} {c : ℚ} (hc : ∀ p ∈ prices, p = c) :
    ∀ i < prices.length, y prices i = 0 * i + c := by
  intro i hi
  rw [zero_mul, zero_add]
  refine hc _ ?_
  unfold y
  rw [List.getD_eq_getElem?_getD, List.getElem?_eq_getElem hi]
  exact List.getElem_mem hi

lemma ymean_linear {prices : List ℚ} {a c : ℚ}
    (hQ : (prices.length : ℚ) ≠ 0)
    (h : ∀ i < prices.length, y prices i = a * i + c) :
    ymean prices = a * xmean prices + c := by
  unfold ymean xmean
  rw [Finset.sum_congr rfl fun i hi => h i (Finset.mem_range.mp hi),
    Finset.sum_add_distrib, ← Finset.mul_sum, Finset.sum_const,
    Finset.card_range, nsmul_eq_mul]
  field_simp
  ring

lemma ssxym_linear {prices : List ℚ} {a c : ℚ}
    (hQ : (prices.length : ℚ) ≠ 0)
    (h : ∀ i < prices.length, y prices i = a * i + c) :
    ssxym prices = a * ssxm prices := by
  unfold ssxym ssxm
  have hdev : ∀ i ∈ Finset.range prices.length,
      ((i : ℚ) - xmean prices) * (y prices i - ymean prices)
        = a * ((i : ℚ) - xmean prices) ^ 2 := by
    intro i hi
    rw [h i (Finset.mem_range.mp hi), ymean_linear hQ h]
    ring
  rw [Finset.sum_congr rfl hdev, ← Finset.mul_sum, mul_div_assoc]

lemma ssym_linear {prices : List ℚ} {a c : ℚ}
    (hQ : (prices.length : ℚ) ≠ 0)
    (h : ∀ i < prices.length, y prices i = a * i + c) :
    ssym prices = a ^ 2 * ssxm prices := by
  unfold ssym ssxm
  have hdev : ∀ i ∈ Finset.range prices.length,
      (y prices i - ymean prices) ^ 2
        = a ^ 2 * ((i : ℚ) - xmean prices) ^ 2 := by
    intro i hi
    rw [h i (Finset.mem_range.mp hi), ymean_linear hQ h]
    ring
  rw [Finset.sum_congr rfl hdev, ← Finset.mul_sum, mul_div_assoc]

lemma slope_linear {prices : List ℚ} {a c : ℚ} (hn : 2 ≤ prices.length)
    (h : ∀ i < prices.length, y prices i = a * i + c) :
    slope prices = a := by
  unfold slope
  rw [ssxym_linear (cast_length_ne_zero hn) h, mul_div_assoc,
    div_self (ne_of_gt (ssxm_pos hn)), mul_one]

lemma intercept_linear {prices : List ℚ} {a c : ℚ} (hn : 2 ≤ prices.length)
    (h : ∀ i < prices.length, y prices i = a * i + c) :
    intercept prices = c := by
  unfold intercept
  rw [slope_linear hn h, ymean_linear (cast_length_ne_zero hn) h]
  ring

lemma TL_linear {prices : List ℚ} {a c : ℚ} (hn : 2 ≤ prices.length)
    (h : ∀ i < prices.length, y prices i = a * i + c) (i : ℕ) :
    TL prices i = a * i + c := by
  unfold TL
  rw [slope_linear hn h, intercept_linear hn h]

lemma residual_linear {prices : List ℚ} {a c : ℚ} (hn : 2 ≤ prices.length)
    (h : ∀ i < prices.length, y prices i = a * i + c) :
    ∀ i < prices.length, residual prices i = 0 := by
  intro i hi
  unfold residual
  rw [TL_linear hn h, h i hi, sub_self]

lemma variance_linear {prices : List ℚ} {a c : ℚ} (hn : 2 ≤ prices.length)
    (h : ∀ i < prices.length, y prices i = a * i + c) :
    variance prices = 0 := by
  unfold variance
  have h0 : ∀ i ∈ Finset.range prices.length, residual prices i ^ 2 = 0 := by
    intro i hi
    rw [residual_linear hn h i (Finset.mem_range.mp hi)]
    norm_num
  rw [Finset.sum_congr rfl h0]
  simp

lemma std_dev_linear {prices : List ℚ} {a c : ℚ} (hn : 2 ≤ prices.length)
    (h : ∀ i < prices.length, y prices i = a * i + c) :
    std_dev prices = 0 := by
  unfold std_dev
  rw [variance_linear hn h]
  simp

/-- The five-way chain sends a price equal to all four thresholds to the
lowest band, because every comparison is strict. -/
lemma statusLabel_self {α : Type} [LinearOrder α] (x : α) :
    statusLabel x x x x x = Label.bargain := by
  simp [statusLabel]

lemma latestStatus_of_flat {prices : List ℚ} (h : std_dev prices = 0)
    (hp : TL prices (prices.length - 1) = currentPrice prices) :
    latestStatus prices = Label.bargain := by
  unfold latestStatus TLp2SD TLp1SD TLm1SD TLm2SD
  rw [h, hp]
  simpa using statusLabel_self ((currentPrice prices : ℝ))

lemma variance_nonneg (prices : List ℚ) : 0 ≤ variance prices :=
  div_nonneg (Finset.sum_nonneg fun i _ => sq_nonneg _) (Nat.cast_nonneg _)

lemma std_dev_nonneg (prices : List ℚ) : 0 ≤ std_dev prices :=
  Real.sqrt_nonneg _

lemma std_dev_sq (prices : List ℚ) :
    std_dev prices ^ 2 = ((variance prices : ℚ) : ℝ) :=
  Real.sq_sqrt (by exact_mod_cast variance_nonneg prices)

/-! ### Claim theorems -/

/-- Claim C1: for every price series of length n ≥ 2, `get_lohas_data` indexes
the prices 0..n-1, fits the ordinary least-squares line (the fitted slope and
intercept minimise the sum of squared residuals over all candidate lines),
sets the trend at index i to `slope*i + intercept`, takes residuals
`price[i] - trend[i]`, computes their population standard deviation (its
square is the sum of squared residuals divided by n, not n-1), and sets the
four bands pointwise at every index to trend ± 1σ and trend ± 2σ. -/
theorem claim_C1_channel (prices : List ℚ) (hn : 2 ≤ prices.length) :
    (∀ m b : ℚ,
      ∑ i ∈ Finset.range prices.length, residual prices i ^ 2
        ≤ ∑ i ∈ Finset.range prices.length, (y prices i - (m * i + b)) ^ 2)
  ∧ (∀ i, TL prices i = slope prices * i + intercept prices)
  ∧ (∀ i, residual prices i = y prices i - TL prices i)
  ∧ 0 ≤ std_dev prices
  ∧ std_dev prices ^ 2
      = ((∑ i ∈ Finset.range prices.length, residual prices i ^ 2 : ℚ) : ℝ)
        / (prices.length : ℝ)
  ∧ (∀ i, TLp1SD prices i = (TL prices i : ℝ) + 1 * std_dev prices
      ∧ TLp2SD prices i = (TL prices i : ℝ) + 2 * std_dev prices
      ∧ TLm1SD prices i = (TL prices i : ℝ) - 1 * std_dev prices
      ∧ TLm2SD prices i = (TL prices i : ℝ) - 2 * std_dev prices) := by
  refine ⟨fun m b => ols_min hn m b, fun i => rfl, fun i => rfl,
    std_dev_nonneg _, ?_, fun i => ⟨rfl, rfl, rfl, rfl⟩⟩
  rw [std_dev_sq]
  unfold variance
  push_cast
  ring

theorem claim_C1_channel_witness :
    2 ≤ ([1, 2, 4] : List ℚ).length
  ∧ ∑ i ∈ Finset.range ([1, 2, 4] : List ℚ).length,
        residual [1, 2, 4] i ^ 2
      ≤ ∑ i ∈ Finset.range ([1, 2, 4] : List ℚ).length,
          (y [1, 2, 4] i - ((0 : ℚ) * i + 0)) ^ 2 :=
  ⟨by decide, (claim_C1_channel [1, 2, 4] (by decide)).1 0 0⟩

/-- Claim C2: the five-level classifier is total (it is a function into the
five labels) and, whenever the four thresholds are ordered, realises exactly
the scheme `price > +2SD` → peak, `+1SD < price ≤ +2SD` → elevated,
`-1SD < price ≤ +1SD` → fair, `-2SD < price ≤ -1SD` → low,
`price ≤ -2SD` → bargain; each of the five characterisations is an `iff`,
so every price receives exactly one label, and a price equal to a threshold
falls in the lower-cost band because the comparisons are strict. -/
theorem claim_C2_classifier (p p2 p1 m1 m2 : ℚ)
    (h21 : m2 ≤ m1) (h11 : m1 ≤ p1) (h12 : p1 ≤ p2) :
    (statusLabel p p2 p1 m1 m2 = Label.peak ↔ p2 < p)
  ∧ (statusLabel p p2 p1 m1 m2 = Label.elevated ↔ p1 < p ∧ p ≤ p2)
  ∧ (statusLabel p p2 p1 m1 m2 = Label.fair ↔ m1 < p ∧ p ≤ p1)
  ∧ (statusLabel p p2 p1 m1 m2 = Label.low ↔ m2 < p ∧ p ≤ m1)
  ∧ (statusLabel p p2 p1 m1 m2 = Label.bargain ↔ p ≤ m2) := by
  unfold statusLabel
  split_ifs with h1 h2 h3 h4
  · exact ⟨iff_of_true rfl h1,
      iff_of_false (by simp) (by rintro ⟨-, hb⟩; linarith),
      iff_of_false (by simp) (by rintro ⟨-, hb⟩; linarith),
      iff_of_false (by simp) (by rintro ⟨-, hb⟩; linarith),
      iff_of_false (by simp) (by intro hb; linarith)⟩
  · exact ⟨iff_of_false (by simp) h1,
      iff_of_true rfl ⟨h2, not_lt.mp h1⟩,
      iff_of_false (by simp) (by rintro ⟨-, hb⟩; linarith),
      iff_of_false (by simp) (by rintro ⟨-, hb⟩; linarith),
      iff_of_false (by simp) (by intro hb; linarith)⟩
  · exact ⟨iff_of_false (by simp) h1,
      iff_of_false (by simp) (by rintro ⟨ha, -⟩; exact h2 ha),
      iff_of_true rfl ⟨h3, not_lt.mp h2⟩,
      iff_of_false (by simp) (by rintro ⟨-, hb⟩; linarith),
      iff_of_false (by simp) (by intro hb; linarith)⟩
  · exact ⟨iff_of_false (by simp) h1,
      iff_of_false (by simp) (by rintro ⟨ha, -⟩; exact h2 ha),
      iff_of_false (by simp) (by rintro ⟨ha, -⟩; exact h3 ha),
      iff_of_true rfl ⟨h4, not_lt.mp h3⟩,
      iff_of_false (by simp) (by intro hb; linarith)⟩
  · exact ⟨iff_of_false (by simp) h1,
      iff_of_false (by simp) (by rintro ⟨ha, -⟩; exact h2 ha),
      iff_of_false (by simp) (by rintro ⟨ha, -⟩; exact h3 ha),
      iff_of_false (by simp) (by rintro ⟨ha, -⟩; exact h4 ha),
      iff_of_true rfl (not_lt.mp h4)⟩

theorem claim_C2_classifier_witness :
    ((1 : ℚ) ≤ 2 ∧ (2 : ℚ) ≤ 3 ∧ (3 : ℚ) ≤ 4)
  ∧ (statusLabel (5 : ℚ) 4 3 2 1 = Label.peak ↔ (4 : ℚ) < 5) :=
  ⟨⟨by decide, by decide, by decide⟩,
    (claim_C2_classifier 5 4 3 2 1 (by decide) (by decide) (by decide)).1⟩

/-- Claim C3: for every series of length ≥ 2 and every index of the series,
the computed thresholds are ordered `-2SD ≤ -1SD ≤ TL ≤ +1SD ≤ +2SD`, the
residual standard deviation being non-negative. -/
theorem claim_C3_ordered (prices : List ℚ) (hn : 2 ≤ prices.length)
    (i : ℕ) (hi : i < prices.length) :
    TLm2SD prices i ≤ TLm1SD prices i
  ∧ TLm1SD prices i ≤ (TL prices i : ℝ)
  ∧ (TL prices i : ℝ) ≤ TLp1SD prices i
  ∧ TLp1SD prices i ≤ TLp2SD prices i := by
  have h := std_dev_nonneg prices
  unfold TLm2SD TLm1SD TLp1SD TLp2SD
  exact ⟨by linarith, by linarith, by linarith, by linarith⟩

theorem claim_C3_ordered_witness :
    2 ≤ ([1, 2] : List ℚ).length ∧ 0 < ([1, 2] : List ℚ).length
  ∧ (TLm2SD [1, 2] 0 ≤ TLm1SD [1, 2] 0
      ∧ TLm1SD [1, 2] 0 ≤ (TL [1, 2] 0 : ℝ)
      ∧ (TL [1, 2] 0 : ℝ) ≤ TLp1SD [1, 2] 0
      ∧ TLp1SD [1, 2] 0 ≤ TLp2SD [1, 2] 0) :=
  ⟨by decide, by decide, claim_C3_ordered [1, 2] (by decide) 0 (by decide)⟩

/-- Claim C4 (code-bug evidence): an empty download is rejected by the
`df.empty` guard, but a single-point series is NOT rejected: `get_lohas_data`
returns a value for it, and the index variance `ssxm` is 0 there, so the
source's `slope = ssxym / ssxm` is the float division `0.0 / 0.0 = NaN` and
the returned channel is NaN-filled garbage instead of an error. -/
theorem claim_C4_singleton_accepted :
    getLohasData (fun _ => some [5]) "2330.TW" = some [5]
  ∧ ssxm ([5] : List ℚ) = 0
  ∧ getLohasData (fun _ => some []) "2330.TW" = none := by
  refine ⟨rfl, ?_, rfl⟩
  norm_num [ssxm, xmean, Finset.sum_range_succ]

/-! ### Concrete evaluations for the constant and linear example series -/

lemma y_const7 : ∀ i < ([7, 7, 7] : List ℚ).length, y [7, 7, 7] i = 0 * i + 7 := by
  intro i hi
  simp only [List.length_cons, List.length_nil] at hi
  interval_cases i <;> norm_num [y, List.getD]

lemma std_dev_ex7 : std_dev ([7, 7, 7] : List ℚ) = 0 :=
  std_dev_linear (by decide) y_const7

lemma latestStatus_ex7 : latestStatus ([7, 7, 7] : List ℚ) = Label.bargain := by
  apply latestStatus_of_flat std_dev_ex7
  rw [TL_linear (by decide) y_const7]
  norm_num [currentPrice, List.getD]

lemma y_lin6 : ∀ i < ([10, 20, 30, 40, 50] : List ℚ).length,
    y [10, 20, 30, 40, 50] i = 10 * i + 10 := by
  intro i hi
  simp only [List.length_cons, List.length_nil] at hi
  interval_cases i <;> norm_num [y, List.getD]

lemma std_dev_ex6 : std_dev ([10, 20, 30, 40, 50] : List ℚ) = 0 :=
  std_dev_linear (by decide) y_lin6

lemma latestStatus_ex6 :
    latestStatus ([10, 20, 30, 40, 50] : List ℚ) = Label.bargain := by
  apply latestStatus_of_flat std_dev_ex6
  rw [TL_linear (by decide) y_lin6]
  norm_num [currentPrice, List.getD]

/-- Claim C5 counterexample: `[7, 7, 7]` is a constant series of length ≥ 2,
yet the classification of its latest price is `bargain` ("🟢 特價"), not
`fair` ("⚪ 合理"): the price equals every threshold and all five comparisons
are strict, so the chain falls through to the final `else`. -/
theorem claim_C5_counterexample :
    (∀ p ∈ ([7, 7, 7] : List ℚ), p = (7 : ℚ))
  ∧ latestStatus ([7, 7, 7] : List ℚ) = Label.bargain
  ∧ Label.bargain ≠ Label.fair :=
  ⟨by decide, latestStatus_ex7, by decide⟩

/-- Claim C5 as amended: for every constant price series of length ≥ 2 the
computation yields slope = 0 and σ = 0 and all band values at every index
equal the constant, but the classification of the latest price is the
`bargain` label (not `fair`), since the price equals all four thresholds and
every comparison in the chain is strict. -/
theorem claim_C5_constant_series (c : ℚ) (prices : List ℚ)
    (hn : 2 ≤ prices.length) (hc : ∀ p ∈ prices, p = c) :
    slope prices = 0
  ∧ std_dev prices = 0
  ∧ (∀ i, TL prices i = c)
  ∧ (∀ i, TLp2SD prices i = (c : ℝ) ∧ TLp1SD prices i = (c : ℝ)
      ∧ TLm1SD prices i = (c : ℝ) ∧ TLm2SD prices i = (c : ℝ))
  ∧ latestStatus prices = Label.bargain := by
  have hlin := y_eq_of_const hc
  have hs := slope_linear hn hlin
  have hTL : ∀ i, TL prices i = c := by
    intro i
    rw [TL_linear hn hlin i]
    ring
  have hsd := std_dev_linear hn hlin
  have hcp : currentPrice prices = c := by
    have hlt : prices.length - 1 < prices.length := by omega
    have h2 := hlin _ hlt
    unfold y at h2
    unfold currentPrice
    rw [h2]
    ring
  refine ⟨hs, hsd, hTL, ?_, ?_⟩
  · intro i
    unfold TLp2SD TLp1SD TLm1SD TLm2SD
    rw [hsd, hTL i]
    norm_num
  · exact latestStatus_of_flat hsd (by rw [hTL, hcp])

theorem claim_C5_constant_series_witness :
    2 ≤ ([9, 9, 9, 9] : List ℚ).length
  ∧ (∀ p ∈ ([9, 9, 9, 9] : List ℚ), p = (9 : ℚ))
  ∧ latestStatus ([9, 9, 9, 9] : List ℚ) = Label.bargain :=
  ⟨by decide, by decide,
    (claim_C5_constant_series 9 [9, 9, 9, 9] (by decide) (by decide)).2.2.2.2⟩

/-- Claim C6 counterexample: for `prices = [10, 20, 30, 40, 50]` the latest
price 50 sits exactly on the trend line and on all four (collapsed) bands,
and the strict `>` chain classifies it as `bargain` ("🟢 特價"), not `fair`. -/
theorem claim_C6_counterexample :
    latestStatus ([10, 20, 30, 40, 50] : List ℚ) = Label.bargain
  ∧ Label.bargain ≠ Label.fair :=
  ⟨latestStatus_ex6, by decide⟩

/-- Claim C6 as amended: for `prices = [10, 20, 30, 40, 50]` the OLS fit
yields slope 10 and intercept 10, the trend at index 4 is 50, all residuals
are 0 so σ = 0 and every band equals the trend pointwise, and the latest
price 50 (equal to the trend line) classifies as `bargain`, not `fair`. -/
theorem claim_C6_example_series :
    slope ([10, 20, 30, 40, 50] : List ℚ) = 10
  ∧ intercept ([10, 20, 30, 40, 50] : List ℚ) = 10
  ∧ TL ([10, 20, 30, 40, 50] : List ℚ) 4 = 50
  ∧ (∀ i < 5, residual ([10, 20, 30, 40, 50] : List ℚ) i = 0)
  ∧ std_dev ([10, 20, 30, 40, 50] : List ℚ) = 0
  ∧ (∀ i, TLp2SD [10, 20, 30, 40, 50] i
        = ((TL [10, 20, 30, 40, 50] i : ℚ) : ℝ)
      ∧ TLp1SD [10, 20, 30, 40, 50] i = ((TL [10, 20, 30, 40, 50] i : ℚ) : ℝ)
      ∧ TLm1SD [10, 20, 30, 40, 50] i = ((TL [10, 20, 30, 40, 50] i : ℚ) : ℝ)
      ∧ TLm2SD [10, 20, 30, 40, 50] i = ((TL [10, 20, 30, 40, 50] i : ℚ) : ℝ))
  ∧ latestStatus ([10, 20, 30, 40, 50] : List ℚ) = Label.bargain := by
  have h10 : slope ([10, 20, 30, 40, 50] : List ℚ) = 10 :=
    slope_linear (by decide) y_lin6
  have hic : intercept ([10, 20, 30, 40, 50] : List ℚ) = 10 :=
    intercept_linear (by decide) y_lin6
  refine ⟨h10, hic, ?_, ?_, std_dev_ex6, ?_, latestStatus_ex6⟩
  · rw [TL_linear (by decide) y_lin6]
    norm_num
  · intro i hi
    exact residual_linear (by decide) y_lin6 i (by simpa using hi)
  · intro i
    unfold TLp2SD TLp1SD TLm1SD TLm2SD
    rw [std_dev_ex6]
    norm_num

/-- Claim C7 counterexample: the claim's cited source includes app3.py's
weekly (週) branch of `get_stock_data`, which reports
`1 - Σ w*(y-ŷ)² / Σ w*(y-ȳ_w)²` from a weighted `np.polyfit`.  Because the
fit minimises the `w²`-weighted objective while the R² formula weights by
`w`, the reported value can be negative: on the valid, all-positive weekly
series [1, 37, 24] it is below 0, hence outside [0, 1] and not the square of
any correlation coefficient — refuting the claim's universal bound. -/
theorem claim_C7_counterexample :
    2 ≤ ([1, 37, 24] : List ℚ).length
  ∧ (∀ p ∈ ([1, 37, 24] : List ℚ), 0 < p)
  ∧ r_squared_weekly ([1, 37, 24] : List ℚ) < 0 := by
  refine ⟨by decide, by decide, ?_⟩
  norm_num [r_squared_weekly, yhat_weekly, yavg_weekly, slope_weekly,
    intercept_weekly, Svw, Svwx, Svwxx, Svwy, Svwxy, vweek, wweek, linspace03,
    y, Finset.sum_range_succ, List.getD]

/-- Claim C7 as amended: on the `linregress` path (app4.py, and app3.py for
the daily and monthly time frames) the reported `r_squared` is the square of
the Pearson correlation between index and price, always lies in [0, 1], and
an exactly linear price series with non-zero slope has `r_squared = 1`
(exactly, in the rational model; "within floating-point tolerance" in the
source); app3.py's weekly branch instead reports a weighted-polyfit R², which
is not the squared Pearson correlation and can fall below 0.  r is not used
in the classification: `statusLabel` takes only the price and thresholds. -/
theorem claim_C7_r_squared (prices : List ℚ) :
    (0 ≤ r_squared prices ∧ r_squared prices ≤ 1)
  ∧ (∀ a c : ℚ, a ≠ 0 → 2 ≤ prices.length →
      (∀ i < prices.length, y prices i = a * i + c) →
      r_squared prices = 1) := by
  constructor
  · refine ⟨sq_nonneg _, ?_⟩
    unfold r_squared r_value
    split_ifs with h
    · norm_num
    · push_neg at h
      obtain ⟨hx, hy2⟩ := h
      have hxpos : 0 < ssxm prices := lt_of_le_of_ne (ssxm_nonneg _) (Ne.symm hx)
      have hypos : 0 < ssym prices := lt_of_le_of_ne (ssym_nonneg _) (Ne.symm hy2)
      have hprod : (0 : ℝ) < (ssxm prices : ℝ) * (ssym prices : ℝ) := by
        have h2 : (0 : ℚ) < ssxm prices * ssym prices := mul_pos hxpos hypos
        exact_mod_cast h2
      rw [div_pow, Real.sq_sqrt hprod.le, div_le_one hprod]
      have hcs := ssxym_sq_le prices
      have hcast : ((ssxym prices : ℝ)) ^ 2 = ((ssxym prices ^ 2 : ℚ) : ℝ) := by
        push_cast
        ring
      rw [hcast]
      calc ((ssxym prices ^ 2 : ℚ) : ℝ)
          ≤ ((ssxm prices * ssym prices : ℚ) : ℝ) := by exact_mod_cast hcs
        _ = (ssxm prices : ℝ) * (ssym prices : ℝ) := by push_cast; ring
  · intro a c ha hn h
    have hxpos := ssxm_pos hn
    have hQ := cast_length_ne_zero hn
    have hsym : ssym prices = a ^ 2 * ssxm prices := ssym_linear hQ h
    have hsxy : ssxym prices = a * ssxm prices := ssxym_linear hQ h
    have ha2 : 0 < a ^ 2 := by positivity
    have hsympos : 0 < ssym prices := by
      rw [hsym]
      exact mul_pos ha2 hxpos
    unfold r_squared r_value
    rw [if_neg (by push_neg; exact ⟨ne_of_gt hxpos, ne_of_gt hsympos⟩), hsxy, hsym]
    have hrw : (ssxm prices : ℝ) * ((a ^ 2 * ssxm prices : ℚ) : ℝ)
        = ((a * ssxm prices : ℚ) : ℝ) ^ 2 := by
      push_cast
      ring
    rw [hrw, Real.sqrt_sq_eq_abs]
    have hne : ((a * ssxm prices : ℚ) : ℝ) ≠ 0 := by
      have h2 : a * ssxm prices ≠ 0 := mul_ne_zero ha (ne_of_gt hxpos)
      exact_mod_cast h2
    rw [div_pow, sq_abs, div_self (pow_ne_zero 2 hne)]

theorem claim_C7_r_squared_witness :
    ((10 : ℚ) ≠ 0 ∧ 2 ≤ ([10, 20, 30, 40, 50] : List ℚ).length)
  ∧ r_squared ([10, 20, 30, 40, 50] : List ℚ) = 1 :=
  ⟨⟨by decide, by decide⟩,
    (claim_C7_r_squared [10, 20, 30, 40, 50]).2 10 10 (by decide) (by decide)
      y_lin6⟩

/-- Claim C8 counterexample: the percent-distance computation has no
defensive guard; at `trend_last = 0` the source performs the float division
`(p - 0) / 0`, which is not a well-defined percentage (inf/NaN, modelled as
`none`). -/
theorem claim_C8_counterexample : distPct 100 0 = none := rfl

/-- Claim C8 as amended: the supplementary signal equals
`(price - trend_last) / trend_last * 100` whenever `trend_last ≠ 0`; there is
no defensive guard in the source, and at `trend_last = 0` the division
produces no well-defined value. -/
theorem claim_C8_dist_formula (p tl : ℚ) (h : tl ≠ 0) :
    distPct p tl = some ((p - tl) / tl * 100) := by
  unfold distPct
  rw [if_neg h]

theorem claim_C8_dist_formula_witness :
    (50 : ℚ) ≠ 0 ∧ distPct 60 50 = some ((60 - 50) / 50 * 100) :=
  ⟨by decide, claim_C8_dist_formula 60 50 (by decide)⟩

/-! ### Batch scan and watchlist persistence -/

lemma summary_length (w : List (String × String))
    (f : String → Option (List ℚ)) :
    (summaryData w f).length
      + (w.filter (fun e => (getLohasData f e.1).isNone)).length = w.length := by
  induction w with
  | nil => rfl
  | cons e t ih =>
    unfold summaryData at ih ⊢
    rw [List.filterMap_cons, List.filter_cons]
    cases hopt : getLohasData f e.1 <;> simp [hopt] <;> omega

lemma filterMap_row_cells (l : List (String × String))
    (h : ∀ e ∈ l, e.1 ≠ "") :
    (l.map (fun e => [e.1, e.2])).filterMap (fun row =>
        if row.getD 0 "" = "" then none
        else some (row.getD 0 "", row.getD 1 "")) = l := by
  induction l with
  | nil => rfl
  | cons e t ih =>
    have he : e.1 ≠ "" := h e (List.mem_cons_self e t)
    rw [List.map_cons, List.filterMap_cons]
    simp only [List.getD_cons_zero, List.getD_cons_succ]
    rw [if_neg he, ih fun x hx => h x (List.mem_cons_of_mem _ hx)]

lemma load_save (w : List (String × String)) (hne : w ≠ [])
    (hkeys : ∀ e ∈ w, e.1 ≠ "") :
    loadSheet (saveRows w) = sortItems w := by
  unfold loadSheet saveRows
  have hlen : 1 < (["ticker", "name"] ::
      (sortItems w).map (fun e => [e.1, e.2])).length := by
    simp only [List.length_cons, List.length_map, sortItems,
      List.length_mergeSort]
    have := List.length_pos.mpr hne
    omega
  rw [if_pos hlen]
  have hdrop : (["ticker", "name"] ::
      (sortItems w).map (fun e => [e.1, e.2])).drop 1
        = (sortItems w).map (fun e => [e.1, e.2]) := rfl
  rw [hdrop]
  apply filterMap_row_cells
  intro e he
  exact hkeys e ((List.mergeSort_perm w _).mem_iff.mp he)

/-- Claim C9: scanning a watchlist of N tickers of which M fail produces
exactly N - M rows (one per successful ticker, failures skipped with no
partial rows — the scan IS the filterMap over the watchlist), and every row's
price, percent distance from trend, and classification label agree with the
single-ticker computation for that ticker's series. -/
theorem claim_C9_scan (w : List (String × String))
    (f : String → Option (List ℚ)) :
    (summaryData w f).length
      = w.length - (w.filter (fun e => (getLohasData f e.1).isNone)).length
  ∧ summaryData w f
      = w.filterMap (fun e => (getLohasData f e.1).map (scanRow e.1 e.2))
  ∧ ∀ e ∈ w, ∀ ps, getLohasData f e.1 = some ps →
      (scanRow e.1 e.2 ps).price = currentPrice ps
      ∧ (scanRow e.1 e.2 ps).pos = latestStatus ps
      ∧ (scanRow e.1 e.2 ps).distPct
          = distPct (currentPrice ps) (TL ps (ps.length - 1)) := by
  refine ⟨?_, rfl, ?_⟩
  · have h := summary_length w f
    omega
  · intro e he ps hps
    exact ⟨rfl, rfl, rfl⟩

theorem claim_C9_scan_witness :
    (("A", "TSMC") ∈ ([("A", "TSMC"), ("B", "NVDA")] : List (String × String)))
  ∧ getLohasData (fun t => if t = "A" then some [1, 2] else none) "A"
      = some [1, 2]
  ∧ (scanRow "A" "TSMC" [1, 2]).pos = latestStatus [1, 2] :=
  ⟨by decide, by decide,
    ((claim_C9_scan [("A", "TSMC"), ("B", "NVDA")]
        (fun t => if t = "A" then some [1, 2] else none)).2.2
      ("A", "TSMC") (by decide) [1, 2] (by decide)).2.1⟩

/-- Claim C10 counterexample: saving the EMPTY mapping writes only the header
row, so the stored sheet has a single row and `load_watchlist_from_google`
falls back to the built-in `default_dict` instead of returning the saved
(empty) mapping — load∘save is not the identity on every mapping with
non-empty ticker keys. -/
theorem claim_C10_counterexample :
    loadSheet (saveRows ([] : List (String × String))) = defaultDict
  ∧ defaultDict ≠ ([] : List (String × String)) := by
  constructor
  · unfold loadSheet saveRows sortItems
    simp
  · decide

/-- Claim C10 as amended: saving writes the header row `["ticker", "name"]`
followed by one row per entry sorted ascending by ticker, and for every
NON-EMPTY mapping whose ticker keys are non-empty strings, loading right
after saving returns exactly the saved entries (as a permutation — the same
ticker-to-name mapping); the empty mapping instead loads back as the default
watchlist. -/
theorem claim_C10_roundtrip (w : List (String × String)) (hne : w ≠ [])
    (hkeys : ∀ e ∈ w, e.1 ≠ "") :
    saveRows w = ["ticker", "name"] :: (sortItems w).map (fun e => [e.1, e.2])
  ∧ (sortItems w).Pairwise (fun a b => a.1 ≤ b.1)
  ∧ List.Perm (loadSheet (saveRows w)) w := by
  refine ⟨rfl, ?_, ?_⟩
  · have htr : ∀ a b c : String × String,
        (decide (a.1 ≤ b.1)) = true → (decide (b.1 ≤ c.1)) = true →
          (decide (a.1 ≤ c.1)) = true := by
      intro a b c hab hbc
      simp only [decide_eq_true_eq] at *
      exact le_trans hab hbc
    have hto : ∀ a b : String × String,
        ((decide (a.1 ≤ b.1)) || (decide (b.1 ≤ a.1))) = true := by
      intro a b
      simpa using le_total a.1 b.1
    have hp := List.sorted_mergeSort htr hto w
    exact hp.imp fun h => by simpa using h
  · rw [load_save w hne hkeys]
    exact List.mergeSort_perm w _

theorem claim_C10_roundtrip_witness :
    (([("B", "beta"), ("A", "alpha")] : List (String × String)) ≠ []
      ∧ (∀ e ∈ ([("B", "beta"), ("A", "alpha")] : List (String × String)),
          e.1 ≠ ""))
  ∧ List.Perm (loadSheet (saveRows [("B", "beta"), ("A", "alpha")]))
      [("B", "beta"), ("A", "alpha")] :=
  ⟨⟨by decide, by decide⟩,
    (claim_C10_roundtrip [("B", "beta"), ("A", "alpha")]
      (by decide) (by decide)).2.2⟩

end Lohas
